import Mathlib

/-!
Verification of the file-abstraction core of `velox/common/file/File.h`.

The header declares a polymorphic `ReadFile` / `WriteFile` contract together
with in-memory and local-disk implementations.  Bytes are modelled as natural
numbers, file contents as lists of bytes, C++ exceptions as an `Except` error
channel, and `folly::SemiFuture` as a resolved-or-failed sum.  Member bodies
that live only in `File.cpp` (not part of this tree) are modelled from the
specification and are marked as such in their doc comments.
-/

namespace Velox

/-- Error kinds raised by the file layer (spec section 7): `VELOX_NYI` maps to
`NotImplemented`, range violations to `OutOfRange`, system-call failures to
`IoError`. -/
inductive VeloxError where
  | NotImplemented : String → VeloxError
  | OutOfRange : VeloxError
  | IoError : VeloxError
  deriving DecidableEq, Repr

/-- `common::Region`: an `(offset, length)` byte range within a file.  Length
zero is permitted. -/
structure Region where
  offset : Nat
  length : Nat
  deriving DecidableEq, Repr, Inhabited

/-- A `folly::Range<char*>` destination buffer for the scatter form of
`preadv`: `hasData = false` models a `nullptr` data pointer, meaning the
buffer consumes `size` source bytes without copying. -/
structure Buffer where
  hasData : Bool
  size : Nat
  deriving DecidableEq, Repr

/-- `folly::SemiFuture` restricted to what the read path uses: a future that
is either resolved with a value or failed with a stored exception. -/
inductive SemiFuture (α : Type) where
  | value : α → SemiFuture α
  | exception : VeloxError → SemiFuture α
  deriving DecidableEq, Repr

/-- The bytes of `file` at `[offset, offset + length)`. -/
def fileSlice (file : List Nat) (offset length : Nat) : List Nat :=
  (file.drop offset).take length

/-- `InMemoryReadFile`: backing store is a single byte string `file_`; the
mutable state is the `shouldCoalesce_` flag (false at construction, settable
for testing) and the inherited `bytesRead_` counter. -/
structure InMemoryReadFile where
  file : List Nat
  shouldCoalesce_ : Bool
  bytesRead_ : Nat
  deriving DecidableEq, Repr

/-- `InMemoryReadFile(file)`: both constructors store the byte string;
`shouldCoalesce_` starts false and `bytesRead_` starts at zero. -/
def InMemoryReadFile.construct (file : List Nat) : InMemoryReadFile :=
  ⟨file, false, 0⟩

def InMemoryReadFile.size (f : InMemoryReadFile) : Nat :=
  f.file.length

def InMemoryReadFile.memoryUsage (f : InMemoryReadFile) : Nat :=
  f.size

def InMemoryReadFile.shouldCoalesce (f : InMemoryReadFile) : Bool :=
  f.shouldCoalesce_

def InMemoryReadFile.setShouldCoalesce (f : InMemoryReadFile) (b : Bool) :
    InMemoryReadFile :=
  { f with shouldCoalesce_ := b }

def InMemoryReadFile.bytesRead (f : InMemoryReadFile) : Nat :=
  f.bytesRead_

def InMemoryReadFile.resetBytesRead (f : InMemoryReadFile) : InMemoryReadFile :=
  { f with bytesRead_ := 0 }

def InMemoryReadFile.getNaturalReadSize : InMemoryReadFile → Nat :=
  fun _ => 1024

/-- Modelled from the spec: the body of `InMemoryReadFile::pread` lives in
`File.cpp`, which is not part of this tree.  Per the spec, `pread` fills the
caller buffer with the bytes at `[offset, offset + length)` and returns a
view over exactly those bytes, fails with `OutOfRange` when
`offset + length` exceeds the file size, and charges the requested `length`
to the `bytesRead_` counter on every call.  The returned list is the content
of the caller buffer ( = the returned view). -/
def InMemoryReadFile.pread (f : InMemoryReadFile) (offset length : Nat) :
    InMemoryReadFile × Except VeloxError (List Nat) :=
  let f' : InMemoryReadFile := { f with bytesRead_ := f.bytesRead_ + length }
  if f.file.length < offset + length then
    (f', .error .OutOfRange)
  else
    (f', .ok (fileSlice f.file offset length))

/-- Scatter a contiguous source into destination buffers, left to right; a
buffer without data skips its size worth of source bytes. -/
def scatterBuffers : List Nat → List Buffer → List (Option (List Nat))
  | _, [] => []
  | src, b :: bs =>
      (if b.hasData then some (src.take b.size) else none)
        :: scatterBuffers (src.drop b.size) bs

/-- Modelled from the spec: the default `ReadFile::preadv(offset, buffers)`
body lives in `File.cpp`, which is not part of this tree.  Per the spec, the
default performs one contiguous read sized to the sum of the buffer lengths
into a temporary, then scatters into the destinations; buffers without data
are skips.  Returns the filled buffers and the byte count. -/
def InMemoryReadFile.preadvBuffers (f : InMemoryReadFile) (offset : Nat)
    (buffers : List Buffer) :
    InMemoryReadFile × Except VeloxError (List (Option (List Nat)) × Nat) :=
  let total := (buffers.map Buffer.size).sum
  match f.pread offset total with
  | (f', .error e) => (f', .error e)
  | (f', .ok bytes) => (f', .ok (scatterBuffers bytes buffers, total))

/-- Modelled from the spec: the default `ReadFile::preadv(regions, iobufs)`
body lives in `File.cpp`, which is not part of this tree.  Per the spec, the
default decomposes the batch into one single-range `pread` per region, in
input order, copy-constructing output `i` from region `i`, and returns the
total number of bytes read. -/
def InMemoryReadFile.preadvRegions (f : InMemoryReadFile)
    (regions : List Region) :
    InMemoryReadFile × Except VeloxError (List (List Nat) × Nat) :=
  match regions with
  | [] => (f, .ok ([], 0))
  | r :: rs =>
    match f.pread r.offset r.length with
    | (f', .error e) => (f', .error e)
    | (f', .ok bytes) =>
      match f'.preadvRegions rs with
      | (f'', .error e) => (f'', .error e)
      | (f'', .ok (outs, total)) => (f'', .ok (bytes :: outs, r.length + total))

/-- The default `ReadFile::preadvAsync` (inline in the header): call the
synchronous `preadv` inside a try block; on success wrap the count in an
already-resolved `SemiFuture`, on a thrown exception return a failed
`SemiFuture` carrying it. -/
def InMemoryReadFile.preadvAsync (f : InMemoryReadFile) (offset : Nat)
    (buffers : List Buffer) : InMemoryReadFile × SemiFuture Nat :=
  match f.preadvBuffers offset buffers with
  | (f', .ok (_, n)) => (f', .value n)
  | (f', .error e) => (f', .exception e)

/-- The default `ReadFile::hasPreadvAsync` (inline in the header) returns
false: the default `preadvAsync` is synchronous. -/
def ReadFile.hasPreadvAsyncDefault : Bool :=
  false

/-- A read entry point invoked on an `InMemoryReadFile`; used to describe
arbitrary sequences of read calls. -/
inductive ReadOp where
  | pread : Nat → Nat → ReadOp
  | preadvBuffers : Nat → List Buffer → ReadOp
  | preadvRegions : List Region → ReadOp
  | preadvAsync : Nat → List Buffer → ReadOp
  | setShouldCoalesce : Bool → ReadOp
  deriving Repr

/-- The state transition performed by one read call (the returned data or
error is dropped; only the mutable instance state is kept). -/
def applyReadOp (f : InMemoryReadFile) : ReadOp → InMemoryReadFile
  | .pread offset length => (f.pread offset length).1
  | .preadvBuffers offset buffers => (f.preadvBuffers offset buffers).1
  | .preadvRegions regions => (f.preadvRegions regions).1
  | .preadvAsync offset buffers => (f.preadvAsync offset buffers).1
  | .setShouldCoalesce b => f.setShouldCoalesce b

/-- The states an `InMemoryReadFile` can be in: freshly constructed, or the
result of any read call, a counter reset, or a `setShouldCoalesce` on a
reachable state. -/
inductive InMemoryReachable : InMemoryReadFile → Prop where
  | construct (file : List Nat) : InMemoryReachable (InMemoryReadFile.construct file)
  | readOp (f : InMemoryReadFile) (op : ReadOp) :
      InMemoryReachable f → InMemoryReachable (applyReadOp f op)
  | resetBytesRead (f : InMemoryReadFile) :
      InMemoryReachable f → InMemoryReachable f.resetBytesRead

/-- The states reachable without ever calling `setShouldCoalesce`. -/
inductive InMemoryReachableNoSet : InMemoryReadFile → Prop where
  | construct (file : List Nat) :
      InMemoryReachableNoSet (InMemoryReadFile.construct file)
  | pread (f : InMemoryReadFile) (offset length : Nat) :
      InMemoryReachableNoSet f → InMemoryReachableNoSet (f.pread offset length).1
  | preadvBuffers (f : InMemoryReadFile) (offset : Nat) (buffers : List Buffer) :
      InMemoryReachableNoSet f →
      InMemoryReachableNoSet (f.preadvBuffers offset buffers).1
  | preadvRegions (f : InMemoryReadFile) (regions : List Region) :
      InMemoryReachableNoSet f →
      InMemoryReachableNoSet (f.preadvRegions regions).1
  | preadvAsync (f : InMemoryReadFile) (offset : Nat) (buffers : List Buffer) :
      InMemoryReachableNoSet f →
      InMemoryReachableNoSet (f.preadvAsync offset buffers).1
  | resetBytesRead (f : InMemoryReadFile) :
      InMemoryReachableNoSet f → InMemoryReachableNoSet f.resetBytesRead

/-- `LocalReadFile` instance state relevant to the async contract: the
`executor_` pointer stored at construction (`none` models `nullptr`) and the
path.  The file-descriptor and size fields play no role in the claims. -/
structure LocalReadFile where
  executor_ : Option Unit
  path_ : String
  deriving DecidableEq, Repr

/-- Modelled from the spec: the `LocalReadFile` constructor body lives in
`File.cpp`, which is not part of this tree.  Per the header signature and the
spec, the constructor stores the optional executor pointer (default
`nullptr`) and the path. -/
def LocalReadFile.construct (path : String)
    (executor : Option Unit := none) : LocalReadFile :=
  ⟨executor, path⟩

/-- `LocalReadFile::hasPreadvAsync` (inline in the header):
`return executor_ != nullptr`. -/
def LocalReadFile.hasPreadvAsync (f : LocalReadFile) : Bool :=
  f.executor_.isSome

/-- `LocalReadFile::shouldCoalesce` (inline in the header): always false. -/
def LocalReadFile.shouldCoalesce : LocalReadFile → Bool :=
  fun _ => false

/-- Default `WriteFile::append(unique_ptr<IOBuf>)` (inline in the header):
`VELOX_NYI("IOBuf appending is not implemented")`.  The argument is the
chain of byte buffers that would be appended. -/
def WriteFile.appendIOBufDefault (_data : List (List Nat)) :
    Except VeloxError Unit :=
  .error (.NotImplemented "IOBuf appending is not implemented")

/-- Default `WriteFile::write(iovecs, offset, length)` (inline in the
header): `VELOX_NYI` with the function name. -/
def WriteFile.writeDefault (_iovecs : List (List Nat))
    (_offset _length : Int) : Except VeloxError Unit :=
  .error (.NotImplemented "write is not implemented")

/-- Default `WriteFile::truncate(newSize)` (inline in the header):
`VELOX_NYI` with the function name. -/
def WriteFile.truncateDefault (_newSize : Int) : Except VeloxError Unit :=
  .error (.NotImplemented "truncate is not implemented")

/-- Default `WriteFile::setAttributes(map)` (inline in the header):
`VELOX_NYI` with the function name. -/
def WriteFile.setAttributesDefault
    (_attributes : List (String × String)) : Except VeloxError Unit :=
  .error (.NotImplemented "setAttributes is not implemented")

/-- Default `WriteFile::getAttributes()` (inline in the header):
`VELOX_NYI` with the function name. -/
def WriteFile.getAttributesDefault :
    Except VeloxError (List (String × String)) :=
  .error (.NotImplemented "getAttributes is not implemented")

/-- Default `WriteFile::getName()` (inline in the header): `VELOX_NYI` with
the function name. -/
def WriteFile.getNameDefault : Except VeloxError String :=
  .error (.NotImplemented "getName is not implemented")

/-- `InMemoryWriteFile`: appends grow an externally owned string. -/
structure InMemoryWriteFile where
  file : List Nat
  deriving DecidableEq, Repr

/-- `InMemoryWriteFile` declares no `getName` override (the header lists only
`append`, `flush`, `close` and `size`), so a call dispatches to the
`WriteFile` default. -/
def InMemoryWriteFile.getName (_f : InMemoryWriteFile) :
    Except VeloxError String :=
  WriteFile.getNameDefault

/-- `LocalWriteFile` instance state relevant to the size contract: the
logical size counter `size_` and the `closed_` flag (the descriptor, path and
attribute map play no role in the claims). -/
structure LocalWriteFile where
  size_ : Nat
  closed_ : Bool
  deriving DecidableEq, Repr

/-- A fresh `LocalWriteFile`: size zero, not closed. -/
def LocalWriteFile.construct : LocalWriteFile :=
  ⟨0, false⟩

/-- Modelled from the spec: the `LocalWriteFile::append` body lives in
`File.cpp`, which is not part of this tree.  Per the spec, the logical size
is updated synchronously on every successful append by the appended byte
count. -/
def LocalWriteFile.append (s : LocalWriteFile) (data : List Nat) :
    LocalWriteFile :=
  { s with size_ := s.size_ + data.length }

/-- Modelled from the spec: the `LocalWriteFile::write` body lives in
`File.cpp`, which is not part of this tree.  Per the spec, a positional
write overwrites `[offset, offset + length)` and updates the logical size
synchronously, extending it when the written range ends past the old end. -/
def LocalWriteFile.write (s : LocalWriteFile) (offset length : Nat) :
    LocalWriteFile :=
  { s with size_ := max s.size_ (offset + length) }

/-- Modelled from the spec: the `LocalWriteFile::truncate` body lives in
`File.cpp`, which is not part of this tree.  Per the spec, truncate sets the
logical size to the new value, reflected by `size()` immediately. -/
def LocalWriteFile.truncate (s : LocalWriteFile) (newSize : Nat) :
    LocalWriteFile :=
  { s with size_ := newSize }

/-- Modelled from the spec: the `LocalWriteFile::flush` body lives in
`File.cpp`, which is not part of this tree.  Flushing makes prior writes
durable; it does not change the logical size or the closed flag. -/
def LocalWriteFile.flush (s : LocalWriteFile) : LocalWriteFile :=
  s

/-- Modelled from the spec: the `LocalWriteFile::close` body lives in
`File.cpp`, which is not part of this tree.  Per the spec, close releases
the handle (sets the closed flag); `size()` stays queryable afterwards. -/
def LocalWriteFile.close (s : LocalWriteFile) : LocalWriteFile :=
  { s with closed_ := true }

/-- `LocalWriteFile::size` (inline in the header): `return size_;` — defined
on every state, closed or not. -/
def LocalWriteFile.size (s : LocalWriteFile) : Nat :=
  s.size_

/-- A write entry point invoked on a `LocalWriteFile` before it is closed. -/
inductive WriteOp where
  | append : List Nat → WriteOp
  | write : Nat → Nat → WriteOp
  | truncate : Nat → WriteOp
  | flush : WriteOp
  deriving Repr

/-- The state transition performed by one write call. -/
def applyWriteOp (s : LocalWriteFile) : WriteOp → LocalWriteFile
  | .append data => s.append data
  | .write offset length => s.write offset length
  | .truncate newSize => s.truncate newSize
  | .flush => s.flush

/-- The logical size the spec promises after a sequence of write calls: the
running sum of appended bytes, overridden by truncation and extended by
positional writes; flushing plays no part in it. -/
def logicalSizeStep (n : Nat) : WriteOp → Nat
  | .append data => n + data.length
  | .write offset length => max n (offset + length)
  | .truncate newSize => newSize
  | .flush => n

/-! ### Helper lemmas -/

theorem fileSlice_eq_map (file : List Nat) (o l : Nat) (h : o + l ≤ file.length) :
    fileSlice file o l = (List.range l).map fun i => file.getD (o + i) 0 := by
  apply List.ext_getElem
  · simp [fileSlice]
    omega
  · intro i h1 h2
    simp only [fileSlice, List.length_take, List.length_drop] at h1
    have hi : o + i < file.length := by omega
    simp [fileSlice, List.getElem_take, List.getElem_drop, List.getElem_map,
      List.getElem_range, List.getD_eq_getElem?_getD, List.getElem?_eq_getElem, hi]

theorem pread_fst (f : InMemoryReadFile) (o l : Nat) :
    (f.pread o l).1 = { f with bytesRead_ := f.bytesRead_ + l } := by
  unfold InMemoryReadFile.pread
  split <;> rfl

theorem pread_snd (f : InMemoryReadFile) (o l : Nat) :
    (f.pread o l).2 =
      if f.file.length < o + l then .error .OutOfRange
      else .ok (fileSlice f.file o l) := by
  unfold InMemoryReadFile.pread
  split <;> simp_all

theorem pread_eq (f : InMemoryReadFile) (o l : Nat) :
    f.pread o l =
      ({ f with bytesRead_ := f.bytesRead_ + l },
        if f.file.length < o + l then .error .OutOfRange
        else .ok (fileSlice f.file o l)) := by
  rw [Prod.ext_iff]
  exact ⟨pread_fst f o l, pread_snd f o l⟩

theorem preadvBuffers_fst (f : InMemoryReadFile) (o : Nat) (bs : List Buffer) :
    (f.preadvBuffers o bs).1 =
      { f with bytesRead_ := f.bytesRead_ + (bs.map Buffer.size).sum } := by
  simp only [InMemoryReadFile.preadvBuffers, pread_eq]
  by_cases hc : f.file.length < o + (bs.map Buffer.size).sum
  · rw [if_pos hc]
  · rw [if_neg hc]

theorem preadvAsync_fst (f : InMemoryReadFile) (o : Nat) (bs : List Buffer) :
    (f.preadvAsync o bs).1 = (f.preadvBuffers o bs).1 := by
  unfold InMemoryReadFile.preadvAsync
  rcases h : f.preadvBuffers o bs with ⟨f', res⟩
  rcases res with e | v
  · rfl
  · rcases v with ⟨outs, n⟩
    rfl

theorem preadvRegions_cons_oob (f : InMemoryReadFile) (r : Region)
    (rs : List Region) (hc : f.file.length < r.offset + r.length) :
    f.preadvRegions (r :: rs) =
      ({ f with bytesRead_ := f.bytesRead_ + r.length }, .error .OutOfRange) := by
  simp only [InMemoryReadFile.preadvRegions, pread_eq]
  rw [if_pos hc]

theorem preadvRegions_cons_ok (f : InMemoryReadFile) (r : Region)
    (rs : List Region) (hc : ¬ f.file.length < r.offset + r.length) :
    f.preadvRegions (r :: rs) =
      match InMemoryReadFile.preadvRegions
          { f with bytesRead_ := f.bytesRead_ + r.length } rs with
      | (f2, .error e) => (f2, .error e)
      | (f2, .ok (outs, total)) =>
          (f2, .ok (fileSlice f.file r.offset r.length :: outs,
            r.length + total)) := by
  simp only [InMemoryReadFile.preadvRegions, pread_eq]
  rw [if_neg hc]

theorem preadvRegions_fst (f : InMemoryReadFile) (rs : List Region) :
    ((f.preadvRegions rs).1).file = f.file ∧
    ((f.preadvRegions rs).1).shouldCoalesce_ = f.shouldCoalesce_ ∧
    f.bytesRead_ ≤ ((f.preadvRegions rs).1).bytesRead_ := by
  induction rs generalizing f with
  | nil => exact ⟨rfl, rfl, Nat.le_refl _⟩
  | cons r rs ih =>
    by_cases hc : f.file.length < r.offset + r.length
    · rw [preadvRegions_cons_oob f r rs hc]
      exact ⟨rfl, rfl, Nat.le_add_right _ _⟩
    · rw [preadvRegions_cons_ok f r rs hc]
      rcases h : InMemoryReadFile.preadvRegions
          { f with bytesRead_ := f.bytesRead_ + r.length } rs with ⟨f2, res2⟩
      have hih := ih (f := { f with bytesRead_ := f.bytesRead_ + r.length })
      rw [h] at hih
      have hle : f.bytesRead_ ≤ f2.bytesRead_ :=
        Nat.le_trans (Nat.le_add_right _ _) hih.2.2
      rcases res2 with e | v
      · exact ⟨hih.1, hih.2.1, hle⟩
      · rcases v with ⟨outs, total⟩
        exact ⟨hih.1, hih.2.1, hle⟩

theorem applyReadOp_bytes_mono (f : InMemoryReadFile) (op : ReadOp) :
    f.bytesRead_ ≤ (applyReadOp f op).bytesRead_ := by
  cases op with
  | pread o l => rw [applyReadOp, pread_fst]; exact Nat.le_add_right _ _
  | preadvBuffers o bs =>
      rw [applyReadOp, preadvBuffers_fst]; exact Nat.le_add_right _ _
  | preadvRegions rs => exact (preadvRegions_fst f rs).2.2
  | preadvAsync o bs =>
      rw [applyReadOp, preadvAsync_fst, preadvBuffers_fst]
      exact Nat.le_add_right _ _
  | setShouldCoalesce b => exact Nat.le_refl _

/-! ### Claim theorems -/

/-- C1: whenever the batched `ReadFile::preadv(regions, iobufs)` succeeds,
the output array has one entry per region and entry `i` holds exactly the
bytes of the file at `regions[i]` — a function of region `i` and the file
content alone, hence independent of how the regions are ordered and of any
internal read reordering. -/
theorem velox_c1 (f f' : InMemoryReadFile) (regions : List Region)
    (outs : List (List Nat)) (total : Nat)
    (h : f.preadvRegions regions = (f', .ok (outs, total))) :
    outs.length = regions.length ∧
    ∀ i, i < regions.length →
      outs.getD i [] =
        fileSlice f.file (regions.getD i default).offset
          (regions.getD i default).length := by
  induction regions generalizing f f' outs total with
  | nil =>
    simp only [InMemoryReadFile.preadvRegions, Prod.mk.injEq,
      Except.ok.injEq] at h
    refine ⟨by simp [← h.2.1], ?_⟩
    intro i hi
    exact absurd hi (by simp)
  | cons r rs ih =>
    by_cases hc : f.file.length < r.offset + r.length
    · rw [preadvRegions_cons_oob f r rs hc] at h
      simp at h
    · rw [preadvRegions_cons_ok f r rs hc] at h
      rcases hq : InMemoryReadFile.preadvRegions
          { f with bytesRead_ := f.bytesRead_ + r.length } rs with ⟨f2, res2⟩
      rw [hq] at h
      rcases res2 with e | v
      · simp at h
      · rcases v with ⟨outs2, total2⟩
        simp only [Prod.mk.injEq, Except.ok.injEq] at h
        obtain ⟨hf2, houts, htotal⟩ := h
        have hih := ih _ f2 outs2 total2 hq
        constructor
        · rw [← houts]
          simp [hih.1]
        · intro i hi
          rw [← houts]
          cases i with
          | zero => simp
          | succ n =>
            simp only [List.getD_cons_succ]
            have hn : n < rs.length := by
              simpa using Nat.lt_of_succ_lt_succ hi
            exact hih.2 n hn

/-- C1 witness: a concrete batch with unsorted, overlapping regions over a
five-byte file. -/
theorem velox_c1_witness :
    ([[30, 40], [10, 20, 30]] : List (List Nat)).length =
        ([⟨2, 2⟩, ⟨0, 3⟩] : List Region).length ∧
    ∀ i, i < ([⟨2, 2⟩, ⟨0, 3⟩] : List Region).length →
      ([[30, 40], [10, 20, 30]] : List (List Nat)).getD i [] =
        fileSlice [10, 20, 30, 40, 50]
          (([⟨2, 2⟩, ⟨0, 3⟩] : List Region).getD i default).offset
          (([⟨2, 2⟩, ⟨0, 3⟩] : List Region).getD i default).length :=
  velox_c1 (InMemoryReadFile.construct [10, 20, 30, 40, 50])
    ⟨[10, 20, 30, 40, 50], false, 5⟩ [⟨2, 2⟩, ⟨0, 3⟩]
    [[30, 40], [10, 20, 30]] 5 rfl

/-- C2: when the synchronous `preadv` raises an error, the default
`ReadFile::preadvAsync` (a total function in this model, so it raises
nothing itself) returns a failed future carrying exactly that error. -/
theorem velox_c2 (f f' : InMemoryReadFile) (offset : Nat)
    (buffers : List Buffer) (e : VeloxError)
    (h : f.preadvBuffers offset buffers = (f', .error e)) :
    f.preadvAsync offset buffers = (f', .exception e) := by
  unfold InMemoryReadFile.preadvAsync
  rw [h]

/-- C2 witness: reading five bytes at offset 2 of a three-byte file fails
out of range, and the async default converts it into a failed future. -/
theorem velox_c2_witness :
    InMemoryReadFile.preadvAsync (InMemoryReadFile.construct [1, 2, 3]) 2
        [⟨true, 5⟩] =
      (⟨[1, 2, 3], false, 5⟩, .exception .OutOfRange) :=
  velox_c2 (InMemoryReadFile.construct [1, 2, 3]) ⟨[1, 2, 3], false, 5⟩ 2
    [⟨true, 5⟩] .OutOfRange rfl

/-- C3: when the synchronous `preadv` succeeds with byte count `n`, the
future returned by the default `ReadFile::preadvAsync` resolves to the
same `n` over the same resulting state. -/
theorem velox_c3 (f f' : InMemoryReadFile) (offset : Nat)
    (buffers : List Buffer) (outs : List (Option (List Nat))) (n : Nat)
    (h : f.preadvBuffers offset buffers = (f', .ok (outs, n))) :
    f.preadvAsync offset buffers = (f', .value n) := by
  unfold InMemoryReadFile.preadvAsync
  rw [h]

/-- C3 witness: a successful two-byte scatter read at offset 0 resolves
the async future to the synchronous count 2. -/
theorem velox_c3_witness :
    InMemoryReadFile.preadvAsync (InMemoryReadFile.construct [1, 2, 3]) 0
        [⟨true, 2⟩] =
      (⟨[1, 2, 3], false, 2⟩, .value 2) :=
  velox_c3 (InMemoryReadFile.construct [1, 2, 3]) ⟨[1, 2, 3], false, 2⟩ 0
    [⟨true, 2⟩] [some [1, 2]] 2 rfl

theorem applyWriteOps_size (ops : List WriteOp) (s : LocalWriteFile) :
    (ops.foldl applyWriteOp s).size_ = ops.foldl logicalSizeStep s.size_ := by
  induction ops generalizing s with
  | nil => rfl
  | cons op ops ih =>
    rw [List.foldl_cons, List.foldl_cons, ih]
    cases op <;> rfl

/-- C4 is false as stated: the state reached from a fresh
`InMemoryReadFile` by the `setShouldCoalesce(true)` test hook (present in
the header) is reachable, and there `shouldCoalesce()` returns true. -/
theorem velox_c4_counterexample :
    ¬ ∀ f : InMemoryReadFile, InMemoryReachable f →
      f.shouldCoalesce = false := by
  intro hall
  have hr : InMemoryReachable
      (applyReadOp (InMemoryReadFile.construct []) (.setShouldCoalesce true)) :=
    InMemoryReachable.readOp _ _ (InMemoryReachable.construct [])
  have hfalse := hall _ hr
  simp [applyReadOp, InMemoryReadFile.setShouldCoalesce,
    InMemoryReadFile.shouldCoalesce, InMemoryReadFile.construct] at hfalse

/-- C4 (amended): `shouldCoalesce()` is false at construction and in every
state reachable without calling the `setShouldCoalesce` test hook — reads
and counter resets never change it; the hook is the only way to flip it. -/
theorem velox_c4_amended (f : InMemoryReadFile)
    (h : InMemoryReachableNoSet f) : f.shouldCoalesce = false := by
  induction h with
  | construct file => rfl
  | pread f o l _ ih =>
      simpa [InMemoryReadFile.shouldCoalesce, pread_fst] using ih
  | preadvBuffers f o bs _ ih =>
      simpa [InMemoryReadFile.shouldCoalesce, preadvBuffers_fst] using ih
  | preadvRegions f rs _ ih =>
      have hflag := (preadvRegions_fst f rs).2.1
      simpa [InMemoryReadFile.shouldCoalesce, hflag] using ih
  | preadvAsync f o bs _ ih =>
      simpa [InMemoryReadFile.shouldCoalesce, preadvAsync_fst,
        preadvBuffers_fst] using ih
  | resetBytesRead f _ ih =>
      simpa [InMemoryReadFile.shouldCoalesce,
        InMemoryReadFile.resetBytesRead] using ih

/-- C4 witness: a freshly constructed empty in-memory file reports
`shouldCoalesce() = false`. -/
theorem velox_c4_witness :
    (InMemoryReadFile.construct []).shouldCoalesce = false :=
  velox_c4_amended (InMemoryReadFile.construct [])
    (InMemoryReachableNoSet.construct [])

/-- C5: across any sequence of read calls the `bytesRead()` counter is
non-decreasing; a single `pread` adds exactly the requested length (not the
bytes delivered, and also on a failing call); and immediately after
`resetBytesRead()` the counter is zero. -/
theorem velox_c5 :
    (∀ (f : InMemoryReadFile) (ops : List ReadOp),
      f.bytesRead ≤ (ops.foldl applyReadOp f).bytesRead) ∧
    (∀ (f : InMemoryReadFile) (offset length : Nat),
      ((f.pread offset length).1).bytesRead = f.bytesRead + length) ∧
    (∀ f : InMemoryReadFile, f.resetBytesRead.bytesRead = 0) := by
  refine ⟨?_, ?_, ?_⟩
  · intro f ops
    show f.bytesRead_ ≤ (ops.foldl applyReadOp f).bytesRead_
    induction ops generalizing f with
    | nil => exact Nat.le_refl _
    | cons op ops ih =>
      exact Nat.le_trans (applyReadOp_bytes_mono f op) (ih (applyReadOp f op))
  · intro f offset length
    show ((f.pread offset length).1).bytesRead_ = f.bytesRead_ + length
    rw [pread_fst]
  · intro f
    rfl

/-- C6: the five optional `WriteFile` operations that a backend may leave
unoverridden — `append(IOBuf)`, `write`, `truncate`, `setAttributes` and
`getAttributes` — each fail hard with a `NotImplemented` error, never
acting as a silent no-op. -/
theorem velox_c6 :
    (∀ data, WriteFile.appendIOBufDefault data =
      .error (.NotImplemented "IOBuf appending is not implemented")) ∧
    (∀ iovecs offset length, WriteFile.writeDefault iovecs offset length =
      .error (.NotImplemented "write is not implemented")) ∧
    (∀ newSize, WriteFile.truncateDefault newSize =
      .error (.NotImplemented "truncate is not implemented")) ∧
    (∀ attributes, WriteFile.setAttributesDefault attributes =
      .error (.NotImplemented "setAttributes is not implemented")) ∧
    (WriteFile.getAttributesDefault =
      .error (.NotImplemented "getAttributes is not implemented")) :=
  ⟨fun _ => rfl, fun _ _ _ => rfl, fun _ => rfl, fun _ => rfl, rfl⟩

/-- C7: `pread(offset, length, buf)` fails with `OutOfRange` exactly when
`offset + length` exceeds the file size, and otherwise returns a view over
exactly the `length` file bytes at positions `offset, offset+1, ...`. -/
theorem velox_c7 (f : InMemoryReadFile) (offset length : Nat) :
    (f.pread offset length).2 =
      if f.file.length < offset + length then .error .OutOfRange
      else .ok ((List.range length).map fun i => f.file.getD (offset + i) 0) := by
  rw [pread_snd]
  by_cases hc : f.file.length < offset + length
  · rw [if_pos hc, if_pos hc]
  · rw [if_neg hc, if_neg hc,
      fileSlice_eq_map f.file offset length (by omega)]

/-- C8: the default `hasPreadvAsync()` is false, and a `LocalReadFile`
reports `hasPreadvAsync() = true` exactly when it was constructed with a
non-null executor. -/
theorem velox_c8 :
    ReadFile.hasPreadvAsyncDefault = false ∧
    ∀ (path : String) (executor : Option Unit),
      (LocalReadFile.construct path executor).hasPreadvAsync =
        executor.isSome :=
  ⟨rfl, fun _ _ => rfl⟩

/-- C9: `close()` leaves `size()` callable and unchanged, and after any
sequence of append / positional-write / truncate / flush calls followed by
`close()`, `size()` returns the logical size those calls determine — with
no flush required, since flushing plays no part in the logical size. -/
theorem velox_c9 :
    (∀ s : LocalWriteFile, s.close.size = s.size) ∧
    (∀ ops : List WriteOp,
      ((ops.foldl applyWriteOp LocalWriteFile.construct).close).size =
        ops.foldl logicalSizeStep 0) := by
  refine ⟨fun s => rfl, fun ops => ?_⟩
  show (ops.foldl applyWriteOp LocalWriteFile.construct).size_ = _
  exact applyWriteOps_size ops LocalWriteFile.construct

/-- C10: the default `WriteFile::getName()` fails with `NotImplemented`,
and `InMemoryWriteFile`, which does not override it, inherits that failure
for every instance. -/
theorem velox_c10 :
    WriteFile.getNameDefault =
      .error (.NotImplemented "getName is not implemented") ∧
    ∀ f : InMemoryWriteFile,
      f.getName = .error (.NotImplemented "getName is not implemented") :=
  ⟨rfl, fun _ => rfl⟩

end Velox
